import Mathlib

/-!
Verification development for stringslator (src/stringslator.py).

The Python program catalogs localizable string resources in an SQLite
database.  We give a shallow embedding of the parts the claims are about:

* the four-table relational state (`DB`) together with the find-or-insert
  helpers (`insertFile`, `insertComponent`, `insertLang`), read-side
  queries (`fetchFile`, `fetchComponents`, `fetchCounts`,
  `fetchFileFromComponent`, `apiInfo`, `apiListTitles`), the cascading
  delete (`deleteFile`) and the ingestion routine
  (`insertResourceIntoDB`, `processResourcesFolder`);
* the transaction boundary (`TxDB` = committed snapshot + pending state;
  `commit` sets the snapshot to the pending state, `rollback` resets the
  pending state to the snapshot) — this models the single sqlite3
  connection of the program;
* the BOM-based encoding detector (`findFileEncoding`);
* the recursive plist flattening (`parseStringsFileXML`);
* the C-source style tokenizer (`parseStringsFileCSource`), including a
  faithful model of the scanning behaviour of the regular expression
  `(?:(?!\s*/\*)(.*?)=(.*?);)|(/\*)|(\*/)` used by the source
  (`scanTokens`) and of the post-processing loop (`emitTokens`).

Filesystem access is modelled by passing the walker's output as data
(`AppRes`): the list of locale directories, each with its list of string
files, each with its parsed key/value pairs.  Python exceptions raised by
indexing an empty string (`key[0]`) or subscripting `None`
(`fetchone()[0]`) are modelled by explicit error values, never by
simplifying them away.  Python's `\s` and `str.strip` are modelled over
the ASCII whitespace characters, which is what the concrete claims
exercise.
-/

-- ---------------------------------------------------------------------
-- Generic helpers: byte-wise string comparison (SQLite memcmp order) and
-- the NOCASE collation (ASCII upper-case folding, then memcmp).
-- ---------------------------------------------------------------------

/-- Lexicographic comparison of byte lists, the order `memcmp` induces on
text values in SQLite (a strict prefix sorts first). -/
def natListLe : List Nat → List Nat → Bool
  | [], _ => true
  | _ :: _, [] => false
  | a :: as, b :: bs => if a < b then true else if b < a then false else natListLe as bs

/-- ASCII fold of one byte, as done by SQLite's NOCASE collation. -/
def nocaseByte (n : Nat) : Nat := if 65 ≤ n ∧ n ≤ 90 then n + 32 else n

/-- Byte list of a string folded for NOCASE comparison. -/
def nocaseKey (s : String) : List Nat := s.data.map (fun c => nocaseByte c.toNat)

/-- `ORDER BY … COLLATE NOCASE` comparison used by the query layer. -/
def nocaseLe (a b : String) : Bool := natListLe (nocaseKey a) (nocaseKey b)

/-- Plain binary text comparison (`ORDER BY name` with default collation). -/
def binLe (a b : String) : Bool :=
  natListLe (a.data.map Char.toNat) (b.data.map Char.toNat)

/-- Ordering relation on `(id, name)` result rows by NOCASE key. -/
def titleLe (a b : Nat × String) : Prop := nocaseLe a.2 b.2 = true

instance : DecidableRel titleLe := fun a b => by unfold titleLe; infer_instance

/-- Ordering relation on `(id, name)` result rows by binary name. -/
def compLe (a b : Nat × String) : Prop := binLe a.2 b.2 = true

instance : DecidableRel compLe := fun a b => by unfold compLe; infer_instance

-- ---------------------------------------------------------------------
-- Data model: the four tables of createTablesIfNeeded.
-- ---------------------------------------------------------------------

/-- One row of table `_file (id, name, dir)`. -/
structure FileRow where
  id : Nat
  name : String
  dir : String
deriving DecidableEq

/-- One row of table `_comp (id, fid, name)`. -/
structure CompRow where
  id : Nat
  fid : Nat
  name : String
deriving DecidableEq

/-- One row of table `_lang (id, name)`. -/
structure LangRow where
  id : Nat
  name : String
deriving DecidableEq

/-- One row of table `_trans (fid, cid, lid, key, value)`. -/
structure TransRow where
  fid : Nat
  cid : Nat
  lid : Nat
  key : String
  value : String
deriving DecidableEq

/-- Database state: the four tables plus the rowid counters that model
sqlite's `lastrowid` for the three tables with INTEGER PRIMARY KEY. -/
structure DB where
  fileRows : List FileRow
  compRows : List CompRow
  langRows : List LangRow
  transRows : List TransRow
  nextFileId : Nat
  nextCompId : Nat
  nextLangId : Nat
deriving DecidableEq

/-- The empty catalog, as created by `createTablesIfNeeded` on a fresh db. -/
def dbEmpty : DB := ⟨[], [], [], [], 1, 1, 1⟩

/-- Connection state: committed snapshot plus the pending (uncommitted)
state seen by the connection's own cursor.  `db.commit()` sets
`committed := pending`; `db.rollback()` sets `pending := committed`. -/
structure TxDB where
  committed : DB
  pending : DB
deriving DecidableEq

-- ---------------------------------------------------------------------
-- Find-or-insert helpers (insertOrReturnRowID specialised per table).
-- ---------------------------------------------------------------------

/-- `fetchIdForTable('_file', ['name','dir'], [name, path])`. -/
def fetchFileId (db : DB) (name dir : String) : Option Nat :=
  (db.fileRows.find? (fun r => r.name == name && r.dir == dir)).map FileRow.id

/-- `insertFile(path, name)` = `insertOrReturnRowID('_file','name,dir',[name,path])`:
returns the updated state, the row id, and the did-exist-before flag. -/
def insertFile (db : DB) (name dir : String) : DB × Nat × Bool :=
  match fetchFileId db name dir with
  | some i => (db, i, true)
  | none =>
    ({ db with
        fileRows := db.fileRows ++ [⟨db.nextFileId, name, dir⟩],
        nextFileId := db.nextFileId + 1 }, db.nextFileId, false)

/-- `insertComponent(f_id, comp)`: find-or-insert on `(fid, name)`. -/
def insertComponent (db : DB) (fid : Nat) (name : String) : DB × Nat :=
  match (db.compRows.find? (fun r => r.fid == fid && r.name == name)).map CompRow.id with
  | some i => (db, i)
  | none =>
    ({ db with
        compRows := db.compRows ++ [⟨db.nextCompId, fid, name⟩],
        nextCompId := db.nextCompId + 1 }, db.nextCompId)

/-- `insertLang(lang)`: find-or-insert on `(name)`. -/
def insertLang (db : DB) (name : String) : DB × Nat :=
  match (db.langRows.find? (fun r => r.name == name)).map LangRow.id with
  | some i => (db, i)
  | none =>
    ({ db with
        langRows := db.langRows ++ [⟨db.nextLangId, name⟩],
        nextLangId := db.nextLangId + 1 }, db.nextLangId)

-- ---------------------------------------------------------------------
-- Read-side queries.
-- ---------------------------------------------------------------------

/-- `fetchFile(f_id)`: `SELECT id,name,dir FROM _file WHERE id=?`. -/
def fetchFile (db : DB) (fid : Nat) : Option FileRow :=
  db.fileRows.find? (fun r => r.id == fid)

/-- `fetchComponents(f_id)`:
`SELECT id,name FROM _comp WHERE fid=? ORDER BY name`. -/
def fetchComponents (db : DB) (fid : Nat) : List (Nat × String) :=
  List.insertionSort compLe
    ((db.compRows.filter (fun r => r.fid == fid)).map (fun r => (r.id, r.name)))

/-- `fetchCounts(f_id)`: `SELECT count(*) FROM _trans WHERE fid=? GROUP BY lid`,
then loop: `(languages, max per language, total)`. -/
def fetchCounts (db : DB) (fid : Nat) : Nat × Nat × Nat :=
  let rows := db.transRows.filter (fun r => r.fid == fid)
  let lids := (rows.map TransRow.lid).dedup
  let cnts := lids.map (fun l => (rows.filter (fun r => r.lid == l)).length)
  (cnts.length, cnts.foldl Nat.max 0, cnts.foldl (· + ·) 0)

/-- `fetchFileFromComponent(c_id)`: `SELECT fid FROM _comp WHERE id=?` then
`fetchone()`.  The source immediately subscripts the result with `[0]`;
when no row matches, `fetchone()` is `None` and `None[0]` raises a
TypeError.  We keep the raw `Option` here and model the subscript at the
call site in `apiInfo`. -/
def fetchFileFromComponent (db : DB) (cid : Nat) : Option Nat :=
  (db.compRows.find? (fun r => r.id == cid)).map CompRow.fid

/-- Result of `apiInfo`: the `(None, None, None)` triple is `notFound`,
the uncaught `TypeError` from `fetchone()[0]` is `typeError`. -/
inductive InfoResult where
  | typeError
  | notFound
  | found (file : FileRow) (comps : List (Nat × String)) (counts : Nat × Nat × Nat)
deriving DecidableEq

/-- Body of `apiInfo` after the component-id resolution: fetch the file
row, returning `(None, None, None)` when it does not exist. -/
def apiInfoFile (db : DB) (fid : Nat) : InfoResult :=
  match fetchFile db fid with
  | none => .notFound
  | some f => .found f (fetchComponents db fid) (fetchCounts db fid)

/-- `apiInfo(f_id, isComponent)`.  With `isComponent=True` the source runs
`f_id = self.fetchFileFromComponent(f_id)` which executes
`self.sql.fetchone()[0]`: if the component id matches no row this raises
`TypeError: 'NoneType' object is not subscriptable`. -/
def apiInfo (db : DB) (i : Nat) (isComponent : Bool) : InfoResult :=
  if isComponent then
    match fetchFileFromComponent db i with
    | none => .typeError
    | some fid => apiInfoFile db fid
  else apiInfoFile db i

/-- `apiListTitles(f_id)`:
`SELECT cid,key FROM _trans WHERE fid=? GROUP BY key ORDER BY key COLLATE NOCASE`.
SQLite groups by `key` alone (BINARY collation) and returns one output row
per group; the bare column `cid` takes its value from an arbitrary row of
the group — we model it as the first matching row in table order.  The
result rows are ordered by the NOCASE collation on `key`. -/
def apiListTitles (db : DB) (fid : Nat) : List (Nat × String) :=
  let rows := db.transRows.filter (fun r => r.fid == fid)
  let keys := (rows.map TransRow.key).dedup
  let grp := keys.filterMap
    (fun k => (rows.find? (fun r => r.key == k)).map (fun r => (r.cid, k)))
  List.insertionSort titleLe grp

-- ---------------------------------------------------------------------
-- Deletion.
-- ---------------------------------------------------------------------

/-- `deleteFile(f_id)`: three DELETE statements
(`_file WHERE id=?`, `_comp WHERE fid=?`, `_trans WHERE fid=?`);
the returned value is `self.sql.rowcount` after the last statement, the
number of translation rows removed. -/
def deleteFile (db : DB) (fid : Nat) : DB × Nat :=
  let db1 := { db with fileRows := db.fileRows.filter (fun r => !(r.id == fid)) }
  let db2 := { db1 with compRows := db1.compRows.filter (fun r => !(r.fid == fid)) }
  let nDel := (db2.transRows.filter (fun r => r.fid == fid)).length
  ({ db2 with transRows := db2.transRows.filter (fun r => !(r.fid == fid)) }, nDel)

-- ---------------------------------------------------------------------
-- Ingestion (StringsFileEnumerator + StringsDB.insertResourceIntoDB).
-- ---------------------------------------------------------------------

/-- Output of the resource-tree walker and parser for one application
root, passed as data: the application basename and absolute path
(computed by `appDirForResourcePath`), and for each locale directory
(`*.lproj`) its basename together with each contained strings file's
basename and parsed key/value pairs. -/
structure AppRes where
  name : String
  dir : String
  locales : List (String × List (String × List (String × String)))

/-- Inner loop of `processResourcesFolder` over the strings files of one
locale directory: `languages.add(l_id)` runs once per file, then the
component row is found-or-inserted and one translation tuple is appended
per parsed pair.  Returns the updated state, the `languages.add`
occurrences, and the accumulated translation rows, in source order. -/
def processFiles (db : DB) (fid lid : Nat) :
    List (String × List (String × String)) → DB × List Nat × List TransRow
  | [] => (db, [], [])
  | (cname, pairs) :: rest =>
    let r1 := insertComponent db fid cname
    let r2 := processFiles r1.1 fid lid rest
    (r2.1, lid :: r2.2.1, pairs.map (fun kv => ⟨fid, r1.2, lid, kv.1, kv.2⟩) ++ r2.2.2)

/-- Outer loop of `processResourcesFolder` over the locale directories:
every locale gets `insertLang` (find-or-insert) before its files are
enumerated. -/
def processLocales (db : DB) (fid : Nat) :
    List (String × List (String × List (String × String))) → DB × List Nat × List TransRow
  | [] => (db, [], [])
  | (lname, files) :: rest =>
    let r1 := insertLang db lname
    let r2 := processFiles r1.1 fid r1.2 files
    let r3 := processLocales r2.1 fid rest
    (r3.1, r2.2.1 ++ r3.2.1, r2.2.2 ++ r3.2.2)

/-- `StringsFileEnumerator.processResourcesFolder`: returns `(languages,
translations)`; `languages` is a Python set of language row ids, modelled
as the list of `languages.add` calls (its cardinality is
`List.dedup.length`). -/
def processResourcesFolder (db : DB) (fid : Nat)
    (locales : List (String × List (String × List (String × String)))) :
    DB × List Nat × List TransRow :=
  processLocales db fid locales

/-- State after `StringsFileEnumerator.__init__`'s `insertFile` plus the
full walk of `processResourcesFolder`, on the pending state of the
connection. -/
def ingestWalk (tx : TxDB) (app : AppRes) : DB × List Nat × List TransRow :=
  processResourcesFolder (insertFile tx.pending app.name app.dir).1
    (insertFile tx.pending app.name app.dir).2.1 app.locales

/-- Pending state after the bulk
`executemany('INSERT INTO _trans VALUES (?,?,?,?,?)', trns)`. -/
def commitState (tx : TxDB) (app : AppRes) : DB :=
  { (ingestWalk tx app).1 with
      transRows := (ingestWalk tx app).1.transRows ++ (ingestWalk tx app).2.2 }

/-- Reported outcome of one ingestion pass. -/
inductive AddOutcome where
  | skipExisting
  | added (nTrans nLangs : Nat)
  | ignoredEmpty
deriving DecidableEq

/-- `StringsDB.insertResourceIntoDB(path)` for a path whose Resources
folder exists (the invalid-path early return touches no state at all).
`StringsFileEnumerator.__init__` find-or-inserts the `_file` row for
`(appName, appPath)`; if it already existed the pass aborts with
"skip existing".  Otherwise the walk accumulates rows and then
`if len(trns) > 0 and len(langs) > 1` bulk-inserts and commits, else
rolls the transaction back. -/
def insertResourceIntoDB (tx : TxDB) (app : AppRes) : TxDB × AddOutcome :=
  if (insertFile tx.pending app.name app.dir).2.2 then
    ({ tx with pending := (insertFile tx.pending app.name app.dir).1 }, .skipExisting)
  else if 0 < (ingestWalk tx app).2.2.length ∧ 1 < (ingestWalk tx app).2.1.dedup.length then
    ({ committed := commitState tx app, pending := commitState tx app },
      .added (ingestWalk tx app).2.2.length (ingestWalk tx app).2.1.dedup.length)
  else
    ({ committed := tx.committed, pending := tx.committed }, .ignoredEmpty)

-- ---------------------------------------------------------------------
-- Encoding detector (StringsFileEnumerator.findFileEncoding).
-- ---------------------------------------------------------------------

/-- `codecs.BOM_UTF32_BE`. -/
def bomUtf32be : List Nat := [0, 0, 254, 255]
/-- `codecs.BOM_UTF32_LE`. -/
def bomUtf32le : List Nat := [255, 254, 0, 0]
/-- `codecs.BOM_UTF16_BE`. -/
def bomUtf16be : List Nat := [254, 255]
/-- `codecs.BOM_UTF16_LE`. -/
def bomUtf16le : List Nat := [255, 254]
/-- `codecs.BOM_UTF8`. -/
def bomUtf8 : List Nat := [239, 187, 191]

/-- `findFileEncoding(path)`: reads `header = fp.read(4)` and walks the
BOM table in source order, breaking on the first `header.startswith(bom)`;
when no BOM matches the loop leaves the loop variable at its last value,
`"utf-8"`, which is also the value of the explicit utf-8 BOM arm.  The
argument is the file's byte content. -/
def findFileEncoding (fileBytes : List Nat) : String :=
  let header := fileBytes.take 4
  if bomUtf32be.isPrefixOf header then "utf-32-be"
  else if bomUtf32le.isPrefixOf header then "utf-32-le"
  else if bomUtf16be.isPrefixOf header then "utf-16-be"
  else if bomUtf16le.isPrefixOf header then "utf-16-le"
  else if bomUtf8.isPrefixOf header then "utf-8"
  else "utf-8"

/-- The five BOM signatures with their encodings, as data. -/
def bomTable : List (List Nat × String) :=
  [(bomUtf32be, "utf-32-be"), (bomUtf32le, "utf-32-le"),
   (bomUtf16be, "utf-16-be"), (bomUtf16le, "utf-16-le"), (bomUtf8, "utf-8")]

/-- Keep the candidate whose signature is strictly longer. -/
def pickLonger : Option (List Nat × String) → List Nat × String → Option (List Nat × String)
  | none, p => some p
  | some q, p => if q.1.length < p.1.length then some p else some q

/-- Modelled from the spec's words for comparison: the encoding of the
longest byte-order-mark signature the first 4 bytes start with, default
utf-8. -/
def longestBomEncoding (fileBytes : List Nat) : String :=
  let header := fileBytes.take 4
  match (bomTable.filter (fun p => p.1.isPrefixOf header)).foldl pickLonger none with
  | none => "utf-8"
  | some p => p.2

-- ---------------------------------------------------------------------
-- XML-style (plist) flattening (parseStringsFileXML).
-- ---------------------------------------------------------------------

/-- A parsed property-list value: a non-mapping leaf (its textual value)
or a nested mapping, whose entry list models Python dict insertion
order. -/
inductive PNode where
  | leaf (s : String)
  | dict (entries : List (String × PNode))

/-- `key = "%s.%s" % (prefix, key) if len(prefix) > 0 else key`. -/
def joinStep (acc k : String) : String :=
  if 0 < acc.length then acc ++ "." ++ k else k

/-- `parseStringsFileXML(xml, prefix)`: walk the mapping; a nested dict is
recursed into with the accumulated key as new prefix, any other value is
yielded with the accumulated key. -/
def parseStringsFileXML (pre : String) : List (String × PNode) → List (String × String)
  | [] => []
  | (k, PNode.leaf s) :: rest => (joinStep pre k, s) :: parseStringsFileXML pre rest
  | (k, PNode.dict l) :: rest =>
      parseStringsFileXML (joinStep pre k) l ++ parseStringsFileXML pre rest

/-- Leaf paths of a mapping: for each non-mapping leaf, the chain of
ancestor keys from the root together with the leaf value. -/
def leafList : List (String × PNode) → List (List String × String)
  | [] => []
  | (k, PNode.leaf s) :: rest => ([k], s) :: leafList rest
  | (k, PNode.dict l) :: rest =>
      (leafList l).map (fun p => (k :: p.1, p.2)) ++ leafList rest

-- ---------------------------------------------------------------------
-- C-source style tokenizer (parseStringsFileCSource).
-- ---------------------------------------------------------------------

/-- ASCII whitespace, the fragment of Python's `\s` / `str.strip` that the
inputs of interest use. -/
def isWs (c : Char) : Bool :=
  c == ' ' || c == '\t' || c == '\n' || c == '\r' ||
  c == Char.ofNat 11 || c == Char.ofNat 12

/-- `str.strip()` on both ends. -/
def pyStrip (s : List Char) : List Char :=
  ((s.dropWhile isWs).reverse.dropWhile isWs).reverse

/-- `key.startswith("//")`. -/
def startsLineComment : List Char → Bool
  | c1 :: c2 :: _ => c1 == '/' && c2 == '/'
  | _ => false

/-- The double-quote character. -/
def qd : Char := Char.ofNat 34
/-- The single-quote character. -/
def qs : Char := Char.ofNat 39

/-- `if s[0] + s[-1] in ["''", '""']: s = s[1:-1]`.  Indexing an empty
string raises IndexError, modelled as `none`. -/
def stripQuotes : List Char → Option (List Char)
  | [] => none
  | c :: cs =>
    let lastc := cs.getLastD c
    if (c == qd && lastc == qd) || (c == qs && lastc == qs) then some cs.dropLast
    else some (c :: cs)

/-- Matching of the non-greedy `(.*?);` part: scan for the first `;`
reachable without crossing a newline (`.` does not match `\n`), returning
the value characters and the rest of the input. -/
def scanSemi : List Char → Option (List Char × List Char)
  | [] => none
  | c :: cs =>
    if c == ';' then some ([], cs)
    else if c == '\n' then none
    else
      match scanSemi cs with
      | some (v, r) => some (c :: v, r)
      | none => none

/-- Matching of `(.*?)=(.*?);` at the current position: the non-greedy key
takes the first `=` (reachable without a newline) whose value scan
succeeds; on a failed value scan the engine backtracks, extending the key
through that `=`. -/
def scanAssign : List Char → Option (List Char × List Char × List Char)
  | [] => none
  | c :: cs =>
    if c == '\n' then none
    else if c == '=' then
      match scanSemi cs with
      | some (v, r) => some ([], v, r)
      | none =>
        match scanAssign cs with
        | some (k, v, r) => some (c :: k, v, r)
        | none => none
    else
      match scanAssign cs with
      | some (k, v, r) => some (c :: k, v, r)
      | none => none

/-- The negative lookahead `(?!\s*/\*)`: the position is skipped for
assignment matching when whitespace followed by `/*` starts here. -/
def startsComment (s : List Char) : Bool :=
  match s.dropWhile isWs with
  | c1 :: c2 :: _ => c1 == '/' && c2 == '*'
  | _ => false

/-- One token produced by `prog.findall`: an assignment clause (groups 1
and 2), a block-comment opener (group 3) or closer (group 4). -/
inductive CToken where
  | assign (k v : List Char)
  | copen
  | cclose
deriving DecidableEq

/-- `prog.findall(content)`: scan left to right; at each position try the
alternation in order (assignment guarded by the lookahead, then `/*`,
then `*/`); on a match continue after it, otherwise advance one
character.  The fuel starts at the input length; every step consumes at
least one character, so it never runs out before the input does. -/
def scanTokensF : Nat → List Char → List CToken
  | 0, _ => []
  | _ + 1, [] => []
  | fuel + 1, c :: cs =>
    match (if startsComment (c :: cs) then none else scanAssign (c :: cs)) with
    | some (k, v, r) => CToken.assign k v :: scanTokensF fuel r
    | none =>
      match c :: cs with
      | '/' :: '*' :: r => CToken.copen :: scanTokensF fuel r
      | '*' :: '/' :: r => CToken.cclose :: scanTokensF fuel r
      | _ :: r => scanTokensF fuel r
      | [] => []

/-- `prog.findall` over the whole decoded content. -/
def scanTokens (s : List Char) : List CToken := scanTokensF s.length s

/-- The `for key, val, cmntA, cmntB in prog.findall(content)` loop.
`cmntA` sets the block-comment flag, `cmntB` clears it; assignments seen
while the flag is set are dropped; a trimmed key starting with `//` is
skipped whole; then both sides are trimmed and quote-stripped and the
pair yielded.  The Boolean result records whether the loop raised an
IndexError (empty trimmed key or value reaching the quote check); the
pairs yielded before that point were already consumed by the caller. -/
def emitTokens : Bool → List CToken → List (String × String) × Bool
  | _, [] => ([], false)
  | _, CToken.copen :: ts => emitTokens true ts
  | _, CToken.cclose :: ts => emitTokens false ts
  | bc, CToken.assign k v :: ts =>
    if bc then emitTokens bc ts
    else
      let k1 := pyStrip k
      if startsLineComment k1 then emitTokens bc ts
      else
        match stripQuotes k1 with
        | none => ([], true)
        | some k2 =>
          match stripQuotes (pyStrip v) with
          | none => ([], true)
          | some v2 =>
            let rest := emitTokens bc ts
            ((String.mk k2, String.mk v2) :: rest.1, rest.2)

/-- `parseStringsFileCSource(filePath)` on decoded content: the yielded
`(key, value)` pairs and whether iteration ended in an IndexError. -/
def parseStringsFileCSource (content : String) : List (String × String) × Bool :=
  emitTokens false (scanTokens content.data)

-- ---------------------------------------------------------------------
-- Concrete fixtures used by witnesses and counterexamples.
-- ---------------------------------------------------------------------

/-- Fresh connection on an empty catalog. -/
def txEmpty : TxDB := ⟨dbEmpty, dbEmpty⟩

/-- Walker output for an application with two locale directories, each
holding one strings file with one pair. -/
def appTwoLang : AppRes :=
  ⟨"App", "/x", [("en", [("Tips", [("k1", "A")])]), ("de", [("Tips", [("k1", "B")])])]⟩

/-- Catalog that already holds the `_file` row for `appTwoLang`. -/
def dbWithFile : DB :=
  { dbEmpty with fileRows := [⟨1, "App", "/x"⟩], nextFileId := 2 }

/-- Connection whose catalog already holds the `_file` row for `appTwoLang`. -/
def txWithFile : TxDB := ⟨dbWithFile, dbWithFile⟩

/-- Catalog where file 1 has two components sharing the key "a" (and a
second file that must survive deletion of file 1). -/
def dbShared : DB :=
  { fileRows := [⟨1, "App", "/a"⟩, ⟨2, "Other", "/b"⟩],
    compRows := [⟨1, 1, "X"⟩, ⟨2, 1, "Y"⟩, ⟨3, 2, "Z"⟩],
    langRows := [⟨1, "en"⟩, ⟨2, "de"⟩],
    transRows := [⟨1, 1, 1, "a", "x"⟩, ⟨1, 2, 1, "a", "y"⟩, ⟨2, 3, 2, "b", "z"⟩],
    nextFileId := 3, nextCompId := 4, nextLangId := 3 }

/-- Nested document whose top-level key is the empty string. -/
def xmlEmptyKeyDoc : List (String × PNode) :=
  [("", PNode.dict [("a", PNode.leaf "x")])]

-- ---------------------------------------------------------------------
-- Helper lemmas (not tied to a single claim).
-- ---------------------------------------------------------------------

/-- Totality of the byte-wise comparison. -/
theorem natListLe_total (a b : List Nat) : natListLe a b = true ∨ natListLe b a = true := by
  induction a generalizing b with
  | nil => left; rfl
  | cons x xs ih =>
    cases b with
    | nil => right; rfl
    | cons y ys =>
      by_cases h1 : x < y
      · left; simp [natListLe, h1]
      · by_cases h2 : y < x
        · right; simp [natListLe, h2]
        · have hxy : x = y := by omega
          subst hxy
          rcases ih ys with h | h
          · left; simpa [natListLe, h1, h2] using h
          · right; simpa [natListLe, h1, h2] using h

/-- Transitivity of the byte-wise comparison. -/
theorem natListLe_trans (a b c : List Nat) (h1 : natListLe a b = true)
    (h2 : natListLe b c = true) : natListLe a c = true := by
  induction a generalizing b c with
  | nil => rfl
  | cons x xs ih =>
    cases b with
    | nil => simp [natListLe] at h1
    | cons y ys =>
      cases c with
      | nil => simp [natListLe] at h2
      | cons z zs =>
        simp only [natListLe] at h1 h2 ⊢
        by_cases hxy : x < y
        · by_cases hyz : y < z
          · simp [show x < z by omega]
          · by_cases hzy : z < y
            · simp [hyz, hzy] at h2
            · have : y = z := by omega
              subst this
              simp [hxy]
        · by_cases hyx : y < x
          · simp [hxy, hyx] at h1
          · have : x = y := by omega
            subst this
            simp only [hxy, if_neg (lt_irrefl x), if_false] at h1 ⊢
            by_cases hyz : x < z
            · simp [hyz]
            · by_cases hzy : z < x
              · simp [hyz, hzy] at h2
              · have : x = z := by omega
                subst this
                simp only [if_neg (lt_irrefl x), if_false] at h2 ⊢
                exact ih ys zs h1 h2

-- ---------------------------------------------------------------------
-- C1: commit iff nonzero translations and at least two languages.
-- ---------------------------------------------------------------------

/-- C1: for one ingestion pass over an application root not yet in the
catalog, the accumulated translation rows are bulk-inserted and the
transaction committed exactly when the accumulated translation count is
nonzero and the distinct language count is at least two; otherwise the
transaction is rolled back, so the pending state is reset to the prior
committed snapshot and no row inserted during the pass (File, Component
or Language) survives. -/
theorem c1_commit_iff_threshold (tx : TxDB) (app : AppRes)
    (hnew : fetchFileId tx.pending app.name app.dir = none) :
    (0 < (ingestWalk tx app).2.2.length ∧ 1 < (ingestWalk tx app).2.1.dedup.length →
      insertResourceIntoDB tx app =
        (⟨commitState tx app, commitState tx app⟩,
          AddOutcome.added (ingestWalk tx app).2.2.length
            (ingestWalk tx app).2.1.dedup.length)) ∧
    (¬ (0 < (ingestWalk tx app).2.2.length ∧ 1 < (ingestWalk tx app).2.1.dedup.length) →
      insertResourceIntoDB tx app = (⟨tx.committed, tx.committed⟩, AddOutcome.ignoredEmpty)) := by
  have h0 : (insertFile tx.pending app.name app.dir).2.2 = false := by
    unfold insertFile
    rw [hnew]
  constructor
  · intro hc
    unfold insertResourceIntoDB
    rw [h0]
    simp [hc]
  · intro hc
    unfold insertResourceIntoDB
    rw [h0]
    simp [hc]

/-- Witness for C1 at a concrete two-language application. -/
theorem c1_commit_iff_threshold_witness :
    fetchFileId txEmpty.pending appTwoLang.name appTwoLang.dir = none ∧
    insertResourceIntoDB txEmpty appTwoLang =
      (⟨commitState txEmpty appTwoLang, commitState txEmpty appTwoLang⟩,
        AddOutcome.added (ingestWalk txEmpty appTwoLang).2.2.length
          (ingestWalk txEmpty appTwoLang).2.1.dedup.length) :=
  ⟨by decide, (c1_commit_iff_threshold txEmpty appTwoLang (by decide)).1 (by decide)⟩

-- ---------------------------------------------------------------------
-- C2: idempotent skip of an already-catalogued application path.
-- ---------------------------------------------------------------------

/-- C2: when the `_file` row for `(appRootBasename, appRootPath)` already
exists, ingestion aborts right after the find-or-insert lookup with the
skip-existing outcome; the state is completely unchanged, so no File,
Component, Language or Translation row is inserted and all row counts
stay the same. -/
theorem c2_skip_existing (tx : TxDB) (app : AppRes) (i : Nat)
    (hex : fetchFileId tx.pending app.name app.dir = some i) :
    insertResourceIntoDB tx app = (tx, AddOutcome.skipExisting) := by
  have h0 : insertFile tx.pending app.name app.dir = (tx.pending, i, true) := by
    unfold insertFile
    rw [hex]
  unfold insertResourceIntoDB
  rw [h0]
  rfl

/-- Witness for C2: a second add on `appTwoLang`'s path is a no-op. -/
theorem c2_skip_existing_witness :
    fetchFileId txWithFile.pending appTwoLang.name appTwoLang.dir = some 1 ∧
    insertResourceIntoDB txWithFile appTwoLang = (txWithFile, AddOutcome.skipExisting) :=
  ⟨by decide, c2_skip_existing txWithFile appTwoLang 1 (by decide)⟩

-- ---------------------------------------------------------------------
-- C3: empty key/value reaching the quote-boundary check.
-- ---------------------------------------------------------------------

/-- C3: the tokenizer does NOT guard empty strings before indexing their
first and last character.  On input `=;` the regular expression yields the
assignment groups `("", "")`; the trimmed key is empty, and `key[0]`
raises an IndexError (crash flag `true`, nothing yielded) instead of the
pair being yielded with the empty string.  The second and third conjuncts
show the same loop succeeding on a normal pair and crashing on an empty
value. -/
theorem c3_empty_key_index_error :
    parseStringsFileCSource "=;" = ([], true) ∧
    parseStringsFileCSource "a=;" = ([], true) ∧
    parseStringsFileCSource "a=b;" = ([("a", "b")], false) := by decide

-- ---------------------------------------------------------------------
-- C4: not-found on the read side; apiInfo with a dangling component id.
-- ---------------------------------------------------------------------

/-- C4: the info operation called with a component id that has no
`_comp` row does NOT return a not-found result: `fetchFileFromComponent`
executes `fetchone()[0]` on `None`, raising a TypeError (first conjunct).
By contrast the file-id path of the same operation handles the missing
row gracefully (second conjunct). -/
theorem c4_component_info_type_error :
    apiInfo dbEmpty 5 true = InfoResult.typeError ∧
    apiInfo dbEmpty 5 false = InfoResult.notFound := by decide

-- ---------------------------------------------------------------------
-- C9: cascading delete by file id.
-- ---------------------------------------------------------------------

/-- A list from which every row with the given id was filtered out has no
row with that id left to find. -/
theorem find?_filter_not_id (l : List FileRow) (fid : Nat) :
    (l.filter (fun r => !(r.id == fid))).find? (fun r => r.id == fid) = none := by
  rw [List.find?_eq_none]
  intro x hx
  have hx2 := (List.mem_filter.mp hx).2
  simp only [Bool.not_eq_eq_eq_not, Bool.not_true] at hx2
  simp [hx2]

/-- Filtering out one present id from a list of rows with pairwise
distinct ids removes exactly one row. -/
theorem length_filter_not_id (l : List FileRow) (fid : Nat)
    (hnd : (l.map FileRow.id).Nodup) (hmem : ∃ f ∈ l, f.id = fid) :
    (l.filter (fun r => !(r.id == fid))).length + 1 = l.length := by
  induction l with
  | nil =>
    rcases hmem with ⟨f, hf, _⟩
    cases hf
  | cons a l ih =>
    rw [List.map_cons, List.nodup_cons] at hnd
    rcases hmem with ⟨f, hf, hfid⟩
    rcases List.mem_cons.mp hf with h | h
    · subst h
      have ha : (f.id == fid) = true := by simp [hfid]
      have hrest : l.filter (fun r => !(r.id == fid)) = l := by
        apply List.filter_eq_self.mpr
        intro x hx
        simp only [Bool.not_eq_eq_eq_not, Bool.not_true, beq_eq_false_iff_ne, ne_eq]
        intro hxx
        exact hnd.1 (List.mem_map.mpr ⟨x, hx, by rw [hxx, hfid]⟩)
      simp [List.filter_cons, ha, hrest]
    · have hane : (a.id == fid) = false := by
        simp only [beq_eq_false_iff_ne, ne_eq]
        intro hb
        exact hnd.1 (List.mem_map.mpr ⟨f, h, by rw [hfid, hb]⟩)
      have := ih hnd.2 ⟨f, h, hfid⟩
      simp only [List.filter_cons, hane, Bool.not_false, if_pos, List.length_cons]
      omega

/-- C9: deleting a present file id removes exactly the `_trans`, `_comp`
and the single `_file` row keyed by that id — every row of any other file
and every `_lang` row is kept — reports the removed translation-row
count, and a subsequent info query for that id returns the
does-not-exist result. -/
theorem c9_delete_cascade (db : DB) (fid : Nat)
    (hmem : ∃ f ∈ db.fileRows, f.id = fid)
    (hnd : (db.fileRows.map FileRow.id).Nodup) :
    (deleteFile db fid).1.fileRows = db.fileRows.filter (fun r => !(r.id == fid)) ∧
    (deleteFile db fid).1.compRows = db.compRows.filter (fun r => !(r.fid == fid)) ∧
    (deleteFile db fid).1.transRows = db.transRows.filter (fun r => !(r.fid == fid)) ∧
    (deleteFile db fid).1.langRows = db.langRows ∧
    (deleteFile db fid).2 = (db.transRows.filter (fun r => r.fid == fid)).length ∧
    (deleteFile db fid).1.fileRows.length + 1 = db.fileRows.length ∧
    apiInfo (deleteFile db fid).1 fid false = InfoResult.notFound := by
  refine ⟨rfl, rfl, rfl, rfl, rfl, ?_, ?_⟩
  · exact length_filter_not_id db.fileRows fid hnd hmem
  · unfold apiInfo apiInfoFile fetchFile
    have hrows : (deleteFile db fid).1.fileRows =
        db.fileRows.filter (fun r => !(r.id == fid)) := rfl
    rw [if_neg (by simp), hrows, find?_filter_not_id]

/-- Witness for C9 on a catalog with two files: deleting file 1 removes
its two translation rows and info then reports does-not-exist. -/
theorem c9_delete_cascade_witness :
    ((∃ f ∈ dbShared.fileRows, f.id = 1) ∧ (dbShared.fileRows.map FileRow.id).Nodup) ∧
    apiInfo (deleteFile dbShared 1).1 1 false = InfoResult.notFound :=
  ⟨⟨⟨⟨1, "App", "/a"⟩, by decide, rfl⟩, by decide⟩,
    (c9_delete_cascade dbShared 1 ⟨⟨1, "App", "/a"⟩, by decide, rfl⟩ (by decide)).2.2.2.2.2.2⟩

-- ---------------------------------------------------------------------
-- C10: empty locale directories and the language threshold.
-- ---------------------------------------------------------------------

/-- `insertComponent` touches only the `_comp` table. -/
theorem insertComponent_langRows (db : DB) (fid : Nat) (n : String) :
    (insertComponent db fid n).1.langRows = db.langRows := by
  unfold insertComponent
  cases (db.compRows.find? (fun r => r.fid == fid && r.name == n)).map CompRow.id <;> rfl

/-- The inner file loop never touches the `_lang` table. -/
theorem processFiles_langRows (db : DB) (fid lid : Nat)
    (fs : List (String × List (String × String))) :
    (processFiles db fid lid fs).1.langRows = db.langRows := by
  induction fs generalizing db with
  | nil => rfl
  | cons f rest ih =>
    simp only [processFiles]
    rw [ih, insertComponent_langRows]

/-- The inner file loop records one `languages.add(l_id)` per strings
file, all with the current locale's language id. -/
theorem processFiles_langs (db : DB) (fid lid : Nat)
    (fs : List (String × List (String × String))) :
    (processFiles db fid lid fs).2.1 = List.replicate fs.length lid := by
  induction fs generalizing db with
  | nil => rfl
  | cons f rest ih =>
    simp only [processFiles, List.length_cons, List.replicate_succ]
    rw [ih]

/-- A list of copies of one element has at most one distinct element. -/
theorem dedup_replicate_le_one (n a : Nat) : (List.replicate n a).dedup.length ≤ 1 := by
  induction n with
  | zero => simp
  | succ n ih =>
    rw [List.replicate_succ]
    by_cases h : a ∈ List.replicate n a
    · rw [List.dedup_cons_of_mem h]
      exact ih
    · rw [List.dedup_cons_of_not_mem h]
      have hn : n = 0 := by
        by_contra hn
        exact h (List.mem_replicate.mpr ⟨hn, rfl⟩)
      subst hn
      simp

/-- After `insertLang` a `_lang` row with the requested name exists. -/
theorem insertLang_mem (db : DB) (n : String) :
    ∃ r ∈ (insertLang db n).1.langRows, r.name = n := by
  unfold insertLang
  cases hf : db.langRows.find? (fun r => r.name == n) with
  | none =>
    refine ⟨⟨db.nextLangId, n⟩, ?_, rfl⟩
    simp [hf]
  | some r =>
    have hr := List.find?_some hf
    have hmem := List.mem_of_find?_eq_some hf
    exact ⟨r, by simp [hf, hmem], by simpa using hr⟩

/-- C10: for an application with two locale directories of which the
second contains no string-resource files, the walk still find-or-inserts
a Language row named after the empty locale, but that locale contributes
nothing to the language count: the `languages` set receives one entry per
string file of the first locale only, so its cardinality is at most one,
the commit threshold fails, and the whole pass is rolled back. -/
theorem c10_empty_locale (tx : TxDB) (nm dr n1 n2 : String)
    (files1 : List (String × List (String × String)))
    (hnew : fetchFileId tx.pending nm dr = none) :
    (∃ r ∈ (ingestWalk tx ⟨nm, dr, [(n1, files1), (n2, [])]⟩).1.langRows, r.name = n2) ∧
    (ingestWalk tx ⟨nm, dr, [(n1, files1), (n2, [])]⟩).2.1.length = files1.length ∧
    (ingestWalk tx ⟨nm, dr, [(n1, files1), (n2, [])]⟩).2.1.dedup.length ≤ 1 ∧
    insertResourceIntoDB tx ⟨nm, dr, [(n1, files1), (n2, [])]⟩ =
      (⟨tx.committed, tx.committed⟩, AddOutcome.ignoredEmpty) := by
  have hwalk : ∀ db0 fid0,
      processLocales db0 fid0 [(n1, files1), (n2, [])] =
        ((insertLang (processFiles (insertLang db0 n1).1 fid0 (insertLang db0 n1).2 files1).1 n2).1,
          (processFiles (insertLang db0 n1).1 fid0 (insertLang db0 n1).2 files1).2.1 ++ [],
          (processFiles (insertLang db0 n1).1 fid0 (insertLang db0 n1).2 files1).2.2 ++ []) := by
    intro db0 fid0
    simp [processLocales, processFiles]
  have hlangs :
      (ingestWalk tx ⟨nm, dr, [(n1, files1), (n2, [])]⟩).2.1 =
        List.replicate files1.length
          (insertLang (insertFile tx.pending nm dr).1 n1).2 := by
    show (processLocales (insertFile tx.pending nm dr).1
      (insertFile tx.pending nm dr).2.1 [(n1, files1), (n2, [])]).2.1 = _
    rw [hwalk]
    simp [processFiles_langs]
  refine ⟨?_, ?_, ?_, ?_⟩
  · show ∃ r ∈ (processLocales (insertFile tx.pending nm dr).1
      (insertFile tx.pending nm dr).2.1 [(n1, files1), (n2, [])]).1.langRows, r.name = n2
    rw [hwalk]
    exact insertLang_mem _ n2
  · rw [hlangs, List.length_replicate]
  · rw [hlangs]
    exact dedup_replicate_le_one _ _
  · have hle : (ingestWalk tx ⟨nm, dr, [(n1, files1), (n2, [])]⟩).2.1.dedup.length ≤ 1 := by
      rw [hlangs]
      exact dedup_replicate_le_one _ _
    have h0 : (insertFile tx.pending nm dr).2.2 = false := by
      unfold insertFile
      rw [hnew]
    unfold insertResourceIntoDB
    rw [h0]
    have hcond : ¬ (0 < (ingestWalk tx ⟨nm, dr, [(n1, files1), (n2, [])]⟩).2.2.length ∧
        1 < (ingestWalk tx ⟨nm, dr, [(n1, files1), (n2, [])]⟩).2.1.dedup.length) := by
      rintro ⟨-, h2⟩
      omega
    simp [hcond]

/-- Witness for C10: an application with locale `en` (one file) and an
empty locale `de` is rolled back. -/
theorem c10_empty_locale_witness :
    fetchFileId txEmpty.pending "App" "/x" = none ∧
    insertResourceIntoDB txEmpty ⟨"App", "/x", [("en", [("Tips", [("k", "v")])]), ("de", [])]⟩ =
      (⟨txEmpty.committed, txEmpty.committed⟩, AddOutcome.ignoredEmpty) :=
  ⟨by decide,
    (c10_empty_locale txEmpty "App" "/x" "en" "de" [("Tips", [("k", "v")])] (by decide)).2.2.2⟩

-- ---------------------------------------------------------------------
-- C8: comment handling of the C-source tokenizer loop.
-- ---------------------------------------------------------------------

/-- While the block-comment flag is set and no closer has been seen, the
emission loop drops every token: only `*/` can clear the flag. -/
theorem emitTokens_inComment (ts : List CToken) (h : CToken.cclose ∉ ts)
    (rest : List CToken) : emitTokens true (ts ++ rest) = emitTokens true rest := by
  induction ts with
  | nil => rfl
  | cons t ts ih =>
    have hnot : CToken.cclose ∉ ts := fun hm => h (List.mem_cons_of_mem _ hm)
    cases t with
    | copen => simpa [emitTokens] using ih hnot
    | cclose => exact absurd (List.mem_cons_self _ _) h
    | assign k v => simpa [emitTokens] using ih hnot

/-- Counterexample to C8 as stated over raw inputs: in
`a=b/* ; x=y; */` the clause `x=y;` lies textually inside the
`/* ... */` block comment, yet the pair `("x", "y")` is among the
yielded pairs.  The scanner consumes the `/*` as part of the value of
the preceding assignment match `a=b/* ;` (the non-greedy value runs to
the first `;`), so no opener token is produced, the inside-comment state
is never set, and the clause inside the comment is tokenized and emitted
as a normal assignment. -/
theorem c8_counterexample :
    parseStringsFileCSource "a=b/* ; x=y; */" = ([("a", "b/*"), ("x", "y")], false) ∧
    ("x", "y") ∈ (parseStringsFileCSource "a=b/* ; x=y; */").1 := by decide

/-- C8 (amended): the suppression happens at the tokenizer-state level,
not on the raw text: in the emission loop over the scanner's token
stream, (1) every assignment token lying between a block-comment opener
token and its closer token is suppressed — with no closer in between,
the inside-comment state set by the opener stays set, so the whole
region emits nothing and removing it leaves the yielded pairs (and the
crash flag) unchanged — whereas a `/*` or `*/` consumed inside a
preceding assignment match never toggles the state (see the
counterexample); and (2) an assignment whose trimmed key begins with
`//` is discarded whole and never contributes a pair, whatever `=` and
`;` it contained. -/
theorem c8_comment_suppression :
    (∀ (bc : Bool) (ts1 ts2 ts3 : List CToken), CToken.cclose ∉ ts2 →
      emitTokens bc (ts1 ++ CToken.copen :: (ts2 ++ CToken.cclose :: ts3)) =
        emitTokens bc (ts1 ++ CToken.copen :: CToken.cclose :: ts3)) ∧
    (∀ (bc : Bool) (ts1 ts2 : List CToken) (k v : List Char),
      startsLineComment (pyStrip k) = true →
      emitTokens bc (ts1 ++ CToken.assign k v :: ts2) = emitTokens bc (ts1 ++ ts2)) := by
  constructor
  · intro bc ts1
    induction ts1 generalizing bc with
    | nil =>
      intro ts2 ts3 h
      show emitTokens true (ts2 ++ CToken.cclose :: ts3) =
        emitTokens true (CToken.cclose :: ts3)
      exact emitTokens_inComment ts2 h (CToken.cclose :: ts3)
    | cons t ts1 ih =>
      intro ts2 ts3 h
      cases t with
      | copen => simpa [emitTokens] using ih true ts2 ts3 h
      | cclose => simpa [emitTokens] using ih false ts2 ts3 h
      | assign k v =>
        cases bc with
        | true => simpa [emitTokens] using ih true ts2 ts3 h
        | false =>
          by_cases hk : startsLineComment (pyStrip k) = true
          · simpa [emitTokens, hk] using ih false ts2 ts3 h
          · simp only [List.cons_append, emitTokens, hk, if_false, Bool.false_eq_true]
            cases hq : stripQuotes (pyStrip k) with
            | none => rfl
            | some k2 =>
              cases hv : stripQuotes (pyStrip v) with
              | none => rfl
              | some v2 =>
                simp only [List.append_eq]
                rw [ih false ts2 ts3 h]
  · intro bc ts1
    induction ts1 generalizing bc with
    | nil =>
      intro ts2 k v hk
      cases bc with
      | true => simp [emitTokens]
      | false => simp [emitTokens, hk]
    | cons t ts1 ih =>
      intro ts2 k v hk
      cases t with
      | copen => simpa [emitTokens] using ih true ts2 k v hk
      | cclose => simpa [emitTokens] using ih false ts2 k v hk
      | assign k0 v0 =>
        cases bc with
        | true => simpa [emitTokens] using ih true ts2 k v hk
        | false =>
          by_cases hk0 : startsLineComment (pyStrip k0) = true
          · simpa [emitTokens, hk0] using ih false ts2 k v hk
          · simp only [List.cons_append, emitTokens, hk0, if_false, Bool.false_eq_true]
            cases hq : stripQuotes (pyStrip k0) with
            | none => rfl
            | some k2 =>
              cases hv : stripQuotes (pyStrip v0) with
              | none => rfl
              | some v2 =>
                simp only [List.append_eq]
                rw [ih false ts2 k v hk]

/-- Witness for C8: both parts applied at concrete token streams, the
first wrapping an `x=y` assignment in a comment region, the second on a
`// c = d;` clause. -/
theorem c8_comment_suppression_witness :
    (CToken.cclose ∉ [CToken.assign ['x'] ['y']] ∧
      emitTokens false
        ([CToken.assign ['a'] ['b']] ++
          CToken.copen :: ([CToken.assign ['x'] ['y']] ++ CToken.cclose :: [])) =
        emitTokens false
          ([CToken.assign ['a'] ['b']] ++ CToken.copen :: CToken.cclose :: [])) ∧
    (startsLineComment (pyStrip ['/', '/', ' ', 'c']) = true ∧
      emitTokens false ([] ++ CToken.assign ['/', '/', ' ', 'c'] ['d'] :: []) =
        emitTokens false ([] ++ [])) :=
  ⟨⟨by decide,
      c8_comment_suppression.1 false [CToken.assign ['a'] ['b']]
        [CToken.assign ['x'] ['y']] [] (by decide)⟩,
    ⟨by decide,
      c8_comment_suppression.2 false [] [] ['/', '/', ' ', 'c'] ['d'] (by decide)⟩⟩

-- ---------------------------------------------------------------------
-- C7: flattening of nested structured documents.
-- ---------------------------------------------------------------------

/-- Counterexample to C7 as stated: for a document whose top-level key is
the empty string, the flattened key is `"a"`, not the dot-joined chain
`"" . "a" = ".a"` — the source only inserts the dot when the accumulated
prefix is nonempty, so leading empty keys contribute no separator. -/
theorem c7_counterexample :
    parseStringsFileXML "" xmlEmptyKeyDoc = [("a", "x")] ∧
    (leafList xmlEmptyKeyDoc).map (fun p => (String.intercalate "." p.1, p.2)) =
      [(".a", "x")] ∧
    ("a" : String) ≠ ".a" := by
  refine ⟨?_, ?_, by decide⟩
  · simp [xmlEmptyKeyDoc, parseStringsFileXML, joinStep]
  · simp only [xmlEmptyKeyDoc, leafList, List.map_cons, List.map_nil, List.map_append]
    decide

/-- C7 (amended): the flattening walk yields exactly one pair per
non-mapping leaf, in document order, whose value is the leaf value
unchanged and whose key is the chain of ancestor keys joined by the
source's step function: a dot is inserted only when the accumulated
prefix is nonempty (so the chain is dot-joined except that leading empty
keys contribute no separator); there is no depth limit. -/
theorem c7_flatten_amended (pre : String) (l : List (String × PNode)) :
    parseStringsFileXML pre l =
      (leafList l).map (fun p => (p.1.foldl joinStep pre, p.2)) := by
  induction pre, l using parseStringsFileXML.induct with
  | case1 pre => simp [parseStringsFileXML, leafList]
  | case2 pre k s rest ih =>
    simp [parseStringsFileXML, leafList, ih]
  | case3 pre k l2 rest ih1 ih2 =>
    simp only [parseStringsFileXML, leafList, List.map_append, List.map_map, ih1, ih2]
    congr 1

-- ---------------------------------------------------------------------
-- C5: list-titles groups by key alone.
-- ---------------------------------------------------------------------

/-- Counterexample to C5 as stated: file 1 of `dbShared` has two distinct
`(componentId, key)` pairs sharing the key `"a"`, but the query groups by
`key` alone, so the result has a single row, not one row per distinct
pair. -/
theorem c5_counterexample :
    (apiListTitles dbShared 1).length = 1 ∧
    (((dbShared.transRows.filter (fun r => r.fid == 1)).map
      (fun r => (r.cid, r.key))).dedup).length = 2 := by decide

/-- Each key of the group list is resolvable, so the second components of
the grouped rows are exactly the keys. -/
theorem grp_map_snd (rows : List TransRow) (keys : List String)
    (h : ∀ k ∈ keys, ∃ r ∈ rows, r.key = k) :
    (keys.filterMap
      (fun k => (rows.find? (fun r => r.key == k)).map (fun r => (r.cid, k)))).map Prod.snd
      = keys := by
  induction keys with
  | nil => rfl
  | cons k ks ih =>
    rcases h k (List.mem_cons_self k ks) with ⟨r, hr, hk⟩
    have hsome : (rows.find? (fun r => r.key == k)).isSome := by
      rw [List.find?_isSome]
      exact ⟨r, hr, by simp [hk]⟩
    rcases Option.isSome_iff_exists.mp hsome with ⟨r0, hr0⟩
    simp [List.filterMap_cons, hr0, ih (fun k2 hk2 => h k2 (List.mem_cons_of_mem _ hk2))]

/-- Every grouped row is backed by an actual table row with that
component id and key. -/
theorem mem_grp (rows : List TransRow) (keys : List String) (p : Nat × String)
    (hp : p ∈ keys.filterMap
      (fun k => (rows.find? (fun r => r.key == k)).map (fun r => (r.cid, k)))) :
    ∃ r ∈ rows, r.cid = p.1 ∧ r.key = p.2 := by
  rcases List.mem_filterMap.mp hp with ⟨k, hk, hsome⟩
  rcases Option.map_eq_some'.mp hsome with ⟨r, hfind, hpr⟩
  refine ⟨r, List.mem_of_find?_eq_some hfind, ?_, ?_⟩
  · rw [← hpr]
  · have hkey := List.find?_some hfind
    rw [← hpr]
    simpa using hkey

/-- C5 (amended): for a file id, list-titles returns one row per distinct
key of that file's translations — grouped by key alone, so two components
sharing a key contribute a single row whose component id is taken from
one of that key's rows — ordered case-insensitively by key. -/
theorem c5_group_by_key_amended (db : DB) (fid : Nat) :
    ((apiListTitles db fid).map Prod.snd).Perm
      (((db.transRows.filter (fun r => r.fid == fid)).map TransRow.key).dedup) ∧
    (∀ p ∈ apiListTitles db fid,
      ∃ r ∈ db.transRows, (r.fid == fid) = true ∧ r.cid = p.1 ∧ r.key = p.2) ∧
    List.Pairwise titleLe (apiListTitles db fid) := by
  have hkeys : ∀ k ∈ ((db.transRows.filter (fun r => r.fid == fid)).map TransRow.key).dedup,
      ∃ r ∈ db.transRows.filter (fun r => r.fid == fid), r.key = k := by
    intro k hk
    rcases List.mem_map.mp (List.mem_dedup.mp hk) with ⟨r, hr, hkey⟩
    exact ⟨r, hr, hkey⟩
  refine ⟨?_, ?_, ?_⟩
  · have hperm :
        (apiListTitles db fid).Perm
          ((((db.transRows.filter (fun r => r.fid == fid)).map TransRow.key).dedup).filterMap
            (fun k => ((db.transRows.filter (fun r => r.fid == fid)).find?
              (fun r => r.key == k)).map (fun r => (r.cid, k)))) :=
      List.perm_insertionSort _ _
    have hmap := hperm.map Prod.snd
    rwa [grp_map_snd _ _ hkeys] at hmap
  · intro p hp
    have hmem : p ∈
        (((db.transRows.filter (fun r => r.fid == fid)).map TransRow.key).dedup).filterMap
          (fun k => ((db.transRows.filter (fun r => r.fid == fid)).find?
            (fun r => r.key == k)).map (fun r => (r.cid, k))) :=
      (List.perm_insertionSort titleLe _).mem_iff.mp hp
    rcases mem_grp _ _ p hmem with ⟨r, hr, h1, h2⟩
    have hflt := List.mem_filter.mp hr
    exact ⟨r, hflt.1, hflt.2, h1, h2⟩
  · haveI : IsTotal (Nat × String) titleLe :=
      ⟨fun a b => natListLe_total (nocaseKey a.2) (nocaseKey b.2)⟩
    haveI : IsTrans (Nat × String) titleLe :=
      ⟨fun a b c hab hbc => natListLe_trans _ _ _ hab hbc⟩
    exact List.sorted_insertionSort titleLe _

-- ---------------------------------------------------------------------
-- C6: BOM-based encoding detection is a longest-match over the table.
-- ---------------------------------------------------------------------

/-- A nonempty prefix pins down the head of the scanned bytes. -/
theorem isPrefixOf_head {a : Nat} {l h : List Nat} (hp : (a :: l).isPrefixOf h = true) :
    ∃ t, h = a :: t := by
  cases h with
  | nil => simp [List.isPrefixOf] at hp
  | cons c t =>
    simp only [List.isPrefixOf, Bool.and_eq_true, beq_iff_eq] at hp
    exact ⟨t, by rw [hp.1]⟩

/-- Two BOMs with different first bytes cannot both match. -/
theorem heads_excl {a a' : Nat} {l l' h : List Nat} (hne : a ≠ a')
    (hp : (a :: l).isPrefixOf h = true) : (a' :: l').isPrefixOf h = false := by
  rcases isPrefixOf_head hp with ⟨t, rfl⟩
  by_contra hq
  rw [Bool.not_eq_false] at hq
  rcases isPrefixOf_head hq with ⟨t', heq⟩
  exact hne (by injection heq)

/-- The source's first-match chain agrees with a longest-match fold over
the table whenever a UTF-16 match excludes the (longer, later-in-chain)
UTF-8 match — the only situation in which first-match and longest-match
could diverge, given the signature lengths 4, 4, 2, 2, 3. -/
theorem chainFold (p1 p2 p3 p4 p5 : Bool)
    (h35 : p3 = true → p5 = false) (h45 : p4 = true → p5 = false) :
    (if p1 then "utf-32-be" else if p2 then "utf-32-le" else if p3 then "utf-16-be"
      else if p4 then "utf-16-le" else if p5 then "utf-8" else "utf-8") =
    (match List.foldl pickLonger none
        ((if p1 then [(bomUtf32be, "utf-32-be")] else []) ++
         (if p2 then [(bomUtf32le, "utf-32-le")] else []) ++
         (if p3 then [(bomUtf16be, "utf-16-be")] else []) ++
         (if p4 then [(bomUtf16le, "utf-16-le")] else []) ++
         (if p5 then [(bomUtf8, "utf-8")] else [])) with
     | none => "utf-8"
     | some p => p.2) := by
  cases p1 <;> cases p2 <;> cases p3 <;> cases p4 <;> cases p5 <;> simp_all <;> decide

/-- Filtering the five-entry BOM table is the concatenation of its
individually tested entries. -/
theorem filter_bomTable (f : List Nat × String → Bool) :
    bomTable.filter f =
      (if f (bomUtf32be, "utf-32-be") then [(bomUtf32be, "utf-32-be")] else []) ++
      (if f (bomUtf32le, "utf-32-le") then [(bomUtf32le, "utf-32-le")] else []) ++
      (if f (bomUtf16be, "utf-16-be") then [(bomUtf16be, "utf-16-be")] else []) ++
      (if f (bomUtf16le, "utf-16-le") then [(bomUtf16le, "utf-16-le")] else []) ++
      (if f (bomUtf8, "utf-8") then [(bomUtf8, "utf-8")] else []) := by
  simp only [bomTable, List.filter_cons, List.filter_nil]
  by_cases h1 : f (bomUtf32be, "utf-32-be") <;>
    by_cases h2 : f (bomUtf32le, "utf-32-le") <;>
    by_cases h3 : f (bomUtf16be, "utf-16-be") <;>
    by_cases h4 : f (bomUtf16le, "utf-16-le") <;>
    by_cases h5 : f (bomUtf8, "utf-8") <;>
    simp [h1, h2, h3, h4, h5]

/-- C6: the encoding detector depends only on the first 4 bytes and
returns the encoding of the longest byte-order-mark signature the bytes
start with (the source's order — both 4-byte UTF-32 marks, then both
2-byte UTF-16 marks, then the 3-byte UTF-8 mark — realises the longest
match because the only overlapping pair is checked longest first);
when no mark matches it falls back to utf-8, and it is total, so there
is no error case. -/
theorem c6_bom_longest_match (bs : List Nat) :
    findFileEncoding bs = longestBomEncoding bs ∧
    findFileEncoding bs = findFileEncoding (bs.take 4) := by
  constructor
  · simp only [findFileEncoding, longestBomEncoding]
    rw [filter_bomTable]
    refine chainFold _ _ _ _ _ ?_ ?_
    · intro h3
      exact heads_excl (by decide) h3
    · intro h4
      exact heads_excl (by decide) h4
  · simp [findFileEncoding, List.take_take]

/-- Witness for the amended C5 at the concrete shared-key catalog. -/
theorem c5_group_by_key_amended_witness :
    ((1, "a") ∈ apiListTitles dbShared 1) ∧
    (∃ r ∈ dbShared.transRows, (r.fid == 1) = true ∧ r.cid = (1, "a").1 ∧
      r.key = (1, "a").2) :=
  ⟨by decide, (c5_group_by_key_amended dbShared 1).2.1 (1, "a") (by decide)⟩
